import Mathlib

/-!
Verification development for the exact-rational linear-algebra engine of this
repository.  The repository ships two implementations of the engine:

* `AdvancedAlgebraCalculator/lib/matrix-operations.js` (the current classes
  `Fraction` and `MatrixOperations`), embedded below in namespace `NewOps`;
* `lib/matrix-operations-old.js` (the older classes with the same names),
  embedded below in namespace `OldOps`.

Modelling conventions (stated once here, referenced by the definitions):

* JavaScript numbers are modelled as exact rationals (`ℚ`).  Claims about
  floating-point rounding are out of scope; every concrete input used in a
  theorem below is small enough that the JS double arithmetic on it is exact.
* `Fraction` objects are modelled by the `Frac` structure (integer numerator
  and denominator, exactly the two fields the JS class stores).  The JS
  constructor's reduction (gcd division plus sign normalisation) is
  `mkFraction`.
* Code that `throw`s is modelled with `Except String`.
* The `steps` trace arrays are purely observational (spec section 3: "never
  read back by the algorithm"); they are not modelled except where a claim
  counts them (the determinant's elimination-step counter).
-/

namespace Spec2Proof

/-! ### Definitions -/

/-- Model of the JS `Fraction` object: the two stored fields. -/
structure Frac where
  num : Int
  den : Int
  deriving DecidableEq, Repr

/-- The `Fraction` constructor of `AdvancedAlgebraCalculator/lib/matrix-operations.js`
(lines 10-37) after its argument parsing: compute `g = gcd(|n|, |d|)` with the
iterative Euclidean loop (which is exactly `Int.gcd`), divide both fields by
`g` (exact, since `g` divides both), then if the denominator is negative
negate both fields.  The older file's constructor (sign-fix before `reduce`)
produces the same two fields on every integer-pair input. -/
def mkFraction (n d : Int) : Frac :=
  if d / (Int.gcd n d : Int) < 0 then
    ⟨-(n / (Int.gcd n d : Int)), -(d / (Int.gcd n d : Int))⟩
  else
    ⟨n / (Int.gcd n d : Int), d / (Int.gcd n d : Int)⟩

/-- The invariant claimed for every constructed `Fraction`: positive
denominator and fully reduced. -/
def Frac.valid (f : Frac) : Prop := 0 < f.den ∧ Int.gcd f.num f.den = 1

instance (f : Frac) : Decidable f.valid := by
  unfold Frac.valid; infer_instance

/-- `Fraction.add` (new file lines 67-74; old file lines 129-134 is the same
formula): cross-multiplied sum fed back through the reducing constructor. -/
def Frac.add (a b : Frac) : Frac :=
  mkFraction (a.num * b.den + b.num * a.den) (a.den * b.den)

/-- `Fraction.subtract` (new file lines 81-88; old file lines 141-146). -/
def Frac.subtract (a b : Frac) : Frac :=
  mkFraction (a.num * b.den - b.num * a.den) (a.den * b.den)

/-- `Fraction.multiply` (new file lines 95-102; old file lines 153-158). -/
def Frac.multiply (a b : Frac) : Frac :=
  mkFraction (a.num * b.num) (a.den * b.den)

/-- `Fraction.divide` of the NEW file (lines 109-116).  Note: this version
performs no zero check on the divisor's numerator; it always builds
`(a.num * b.den) / (a.den * b.num)` through the constructor. -/
def Frac.divide (a b : Frac) : Frac :=
  mkFraction (a.num * b.den) (a.den * b.num)

/-- `Fraction.divide` of the OLD file (lines 165-173): throws
`除数不能为零` when the divisor's numerator is zero, otherwise builds the
same quotient as the new file. -/
def Frac.divideOld (a b : Frac) : Except String Frac :=
  if b.num = 0 then .error "除数不能为零"
  else .ok (mkFraction (a.num * b.den) (a.den * b.num))

/-- Rational value stored by a `Frac` (the JS `toFloat`, read exactly). -/
def Frac.toRat (f : Frac) : ℚ := (f.num : ℚ) / (f.den : ℚ)

/-- The reduced `Fraction` object holding a given rational value: the
constructor's reduction and sign normalisation (proved for `mkFraction`
below) make the two stored fields exactly the normal form of the value, so
a constructed object with value `q` has fields `q.num` and `q.den`. -/
def Frac.ofRat (q : ℚ) : Frac := ⟨q.num, q.den⟩

/-- `Fraction.toString` of the new file (lines 122-130): the numerator
alone when the denominator is 1, otherwise `numerator/denominator`. -/
def Frac.render (f : Frac) : String :=
  if f.den = 1 then toString f.num
  else toString f.num ++ "/" ++ toString f.den


/-- JS `Math.round` on an exact rational: round half toward positive
infinity, `⌊x + 1/2⌋`. -/
def jsRound (x : ℚ) : Int := ⌊x + 1 / 2⌋

/-- `MatrixOperations.toFraction` of the NEW file (lines 172-187), number
branch: the brute-force scaled fraction `round(num * 10^decimalPlaces) /
10^decimalPlaces` with `decimalPlaces` hard-coded to 10, fed through the
reducing constructor. -/
def toFractionNew (num : ℚ) : Frac :=
  mkFraction (jsRound (num * 10 ^ 10)) (10 ^ 10)

/-- Continued-fraction loop of the OLD file's `Fraction.fromFloat`
(lines 85-114), run for at most `maxIterations = 20` rounds (structural
fuel).  Arguments after the fuel: current remainder, current convergent
numerator and denominator, and the previous pair (`tempNumerator`,
`tempDenominator`), updated exactly in the JS order. -/
def cfLoop (prec : ℕ) : ℕ → ℚ → Int → Int → Int → Int → Int × Int
  | 0, _, numerator, denominator, _, _ => (numerator, denominator)
  | fuel + 1, remainder, numerator, denominator, tempN, tempD =>
    if remainder > 1 / 10 ^ prec then
      let reciprocal := remainder⁻¹
      let f : Int := ⌊reciprocal⌋
      cfLoop prec fuel (reciprocal - f) (f * numerator + tempN)
        (f * denominator + tempD) numerator denominator
    else (numerator, denominator)

/-- `Fraction.fromFloat` of the OLD file (lines 77-122): integer inputs map
directly through the constructor as `n/1`; non-integer inputs run the
bounded continued-fraction loop starting from `numerator = 1, denominator =
0, temp = (0, 1)` and `remainder = value - floor(value)`, then apply the
sign fix and feed the resulting pair to the reducing constructor.  The JS
float argument is modelled by the exact rational it denotes. -/
def fromFloatOld (value : ℚ) (prec : ℕ) : Frac :=
  if value.den = 1 then mkFraction value.num 1
  else
    mkFraction
      (if value < 0 then -(cfLoop prec 20 (value - (⌊value⌋ : Int)) 1 0 0 1).1
       else (cfLoop prec 20 (value - (⌊value⌋ : Int)) 1 0 0 1).1)
      (cfLoop prec 20 (value - (⌊value⌋ : Int)) 1 0 0 1).2


namespace OldOps

/-- Working matrix of `calculateDeterminant` in the old file, after the
per-entry `convertToAppropriateType` conversion: entries are exact rationals
(`Fraction` values read exactly; integer inputs convert to themselves).  JS
arrays are integer-indexed, so the matrix is a total function on `ℕ`; only
indices below the size `n` are ever read. -/
abbrev Mat := ℕ → ℕ → ℚ

/-- Partial-pivot search of the old `calculateDeterminant` (lines 786-797):
scan rows `j = i..n-1`, keeping the first row whose column-`i` entry has
strictly larger absolute value (the JS `Math.abs(toFloat())` comparison,
read exactly). -/
def findPivotRow (M : Mat) (i n : ℕ) : ℕ :=
  (List.range n).foldl
    (fun best j => if i ≤ j ∧ |M j i| > |M best i| then j else best) i

/-- Row swap (the JS destructuring swap of two row references). -/
def swapRows (M : Mat) (a b : ℕ) : Mat :=
  fun r c => if r = a then M b c else if r = b then M a c else M r c

/-- One elimination stage of the old `calculateDeterminant` (lines 823-865):
for every row `j > i` subtract `factor * row i` from row `j` on columns
`k ≥ i`, with `factor = M[j][i] / M[i][i]` read before the updates (the JS
code precomputes `factor`, so the simultaneous functional update below
matches the in-place loop). -/
def elimBelow (M : Mat) (i : ℕ) : Mat :=
  fun r c => if i < r ∧ i ≤ c then M r c - M r i / M i i * M i c else M r c

/-- Main loop of the old `calculateDeterminant` (lines 785-866).  For pivot
index `i = 0..n-1`: select the pivot row, swap it into place (incrementing
`swapCount`), short-circuit with `none` if the pivot entry is exactly zero
(the source then returns determinant 0), otherwise eliminate below the pivot
(recording one trace step per eliminated row, counted in `c`).  `gas` is
structural fuel, always called with `gas = n` so it cannot run out before
`i` reaches `n`. -/
def detGo (n : ℕ) : ℕ → ℕ → Mat → ℕ → ℕ → Option (Mat × ℕ × ℕ)
  | 0, _, M, swaps, c => some (M, swaps, c)
  | gas + 1, i, M, swaps, c =>
    if i < n then
      let p := findPivotRow M i n
      let M1 := if p = i then M else swapRows M i p
      let s1 := if p = i then swaps else swaps + 1
      if M1 i i = 0 then none
      else detGo n gas (i + 1) (elimBelow M1 i) s1 (c + (n - (i + 1)))
    else some (M, swaps, c)

/-- Product of the diagonal entries of the triangularized matrix, multiplied
in the JS loop order (old file lines 869-876). -/
def diagProd (T : Mat) (n : ℕ) : ℚ :=
  (List.range n).foldl (fun acc i => acc * T i i) 1

/-- Result value of the old `calculateDeterminant` (lines 731-889) on an
`n × n` working matrix: 0 on the zero-pivot short circuit, otherwise the
diagonal product negated when `swapCount` is odd (lines 879-881).  The
source's `n == 1` fast path returns the single entry directly, which is the
same value this uniform loop produces for `n = 1`. -/
def calculateDeterminant (M : Mat) (n : ℕ) : ℚ :=
  match detGo n n 0 M 0 0 with
  | none => 0
  | some (T, s, _) => if s % 2 ≠ 0 then diagProd T n * (-1) else diagProd T n

/-- Zero pattern after processing pivot columns `0..i-1`: every entry that is
below the diagonal in one of those columns is zero. -/
def PartTri (M : Mat) (i : ℕ) : Prop :=
  ∀ r c : ℕ, c < r → c < i → M r c = 0

/-! Linear-system solver of the old file (`solveEquations` and its helpers,
lines 1610-1799).  This code path works on plain JS numbers (no `Fraction`
conversion), modelled as exact rationals; matrices are JS arrays of arrays,
modelled as `List (List ℚ)`. -/

/-- JS array read `m[i][j]`; out-of-range reads never occur in the uses
below. -/
def getE (M : List (List ℚ)) (i j : ℕ) : ℚ := (M.getD i []).getD j 0

/-- The old file's numeric zero test `isZero` (line 1745):
`Math.abs(value) < 1e-10`. -/
def isZeroNum (x : ℚ) : Bool := |x| < 1 / 10 ^ 10

/-- The old file's `round` (lines 366-371) on a number: scale by
`10^precision` with `precision = 10`, `Math.round`, scale back.  (Call sites
pass a second argument `6`, which the one-parameter JS signature ignores.) -/
def jsRound10 (x : ℚ) : ℚ := (jsRound (x * 10 ^ 10) : ℚ) / 10 ^ 10

/-- Simultaneous row swap `[result[i], result[r]] = [result[r], result[i]]`. -/
def swapRowsL (M : List (List ℚ)) (a b : ℕ) : List (List ℚ) :=
  (M.set a (M.getD b [])).set b (M.getD a [])

/-- The pivot-row search of `reduceToRowEchelon` (lines 1693-1702): first
index `i` in `[r, m)` whose entry in column `lead` is not numerically zero;
`none` when the scan reaches `m` for every candidate (the JS code then
advances `lead`).  Structural fuel, called with `fuel = m`. -/
def findRowFrom (M : List (List ℚ)) (lead m : ℕ) : ℕ → ℕ → Option ℕ
  | 0, _ => none
  | fuel + 1, i =>
    if i < m then
      if isZeroNum (getE M i lead) then findRowFrom M lead m fuel (i + 1) else some i
    else none

/-- Pivot-row normalisation (lines 1707-1713): divide the entries
`j = lead..n-1` of the row by the pivot value `lv`. -/
def normalizeRow (row : List ℚ) (lead : ℕ) (lv : ℚ) : List ℚ :=
  row.mapIdx (fun j x => if lead ≤ j then x / lv else x)

/-- Elimination of every other row (lines 1716-1723): each row `i ≠ r` with
a non-(numerically-)zero entry `lv2` in column `lead` gets
`row[j] -= lv2 * pivotRow[j]` for `j = lead..n-1`.  Each JS iteration reads
only the pivot row and the row it updates, so the simultaneous map below
matches the sequential loop. -/
def elimOthersL (M : List (List ℚ)) (r lead : ℕ) : List (List ℚ) :=
  M.mapIdx (fun i row =>
    if i ≠ r ∧ ¬ isZeroNum (row.getD lead 0) then
      row.mapIdx (fun j x =>
        if lead ≤ j then x - row.getD lead 0 * (M.getD r []).getD j 0 else x)
    else row)

/-- Main loop of the old `reduceToRowEchelon` (lines 1684-1729), with the
row counter `r` and the `lead` column.  A full-column scan failure advances
`lead` without advancing `r` (the JS inner `while` resetting `i = r`);
success swaps the found row up, normalises it (the JS code re-checks the
pivot for zero before normalising), eliminates every other row, and
advances both counters.  `lead` increases on every iteration, so fuel `n`
suffices. -/
def rrefGo (m n : ℕ) : ℕ → ℕ → ℕ → List (List ℚ) → List (List ℚ)
  | 0, _, _, M => M
  | gas + 1, r, lead, M =>
    if r < m ∧ lead < n then
      match findRowFrom M lead m m r with
      | none => rrefGo m n gas r (lead + 1) M
      | some i =>
        let M1 := swapRowsL M i r
        let M2 :=
          if ¬ isZeroNum (getE M1 r lead) then
            M1.set r (normalizeRow (M1.getD r []) lead (getE M1 r lead))
          else M1
        rrefGo m n gas (r + 1) (lead + 1) (elimOthersL M2 r lead)
    else M

/-- `reduceToRowEchelon` of the old file (lines 1684-1729). -/
def reduceToRowEchelon (M : List (List ℚ)) : List (List ℚ) :=
  rrefGo M.length (M.headD []).length (M.headD []).length 0 0 M

/-- `calculateRank` of the old file (lines 1732-1741): reduce, then count
the rows that are not entirely numerically zero. -/
def calculateRank (M : List (List ℚ)) : ℕ :=
  (reduceToRowEchelon M).countP (fun row => ¬ row.all (fun v => isZeroNum v))

/-- One step of the back-substitution in the old `gaussianElimination`
(lines 1667-1681): `x[i] = (M[i][nr] - Σ_{j>i} M[i][j] * x[j]) / M[i][i]`
where `nr` is the row count of the reduced augmented matrix. -/
def backSubstStep (M : List (List ℚ)) (nr i : ℕ) (x : List ℚ) : List ℚ :=
  x.set i ((getE M i nr -
    (List.range nr).foldl (fun acc j => if i < j then acc + getE M i j * x.getD j 0 else acc) 0) /
    getE M i i)

/-- Back-substitution loop, descending `i = nr-1 .. 0` (the index processed
at fuel `f + 1` is `f`). -/
def backSubstGo (M : List (List ℚ)) (nr : ℕ) : ℕ → List ℚ → List ℚ
  | 0, x => x
  | f + 1, x => backSubstGo M nr f (backSubstStep M nr f x)

/-- `gaussianElimination` of the old file (lines 1667-1681): back-substitute
over the reduced augmented matrix, then round each entry (`round(val, 6)`,
whose second argument the old `round` ignores). -/
def gaussianElimination (M : List (List ℚ)) : List ℚ :=
  (backSubstGo M M.length M.length (List.replicate M.length 0)).map jsRound10

/-- The JS `row.findIndex(val => !this.isZero(val))`, as an `Option` (the JS
`-1` is `none`). -/
def firstNonZeroIdx (row : List ℚ) : Option ℕ :=
  row.findIdx? (fun v => ¬ isZeroNum v)

/-- Pivot-column collection of `findParticularSolutionAndBasis`
(lines 1756-1762): first non-zero index of each row when it lies left of the
constants column. -/
def pivotColumnsOf (rref : List (List ℚ)) (n : ℕ) : List ℕ :=
  rref.foldr (fun row acc =>
    match firstNonZeroIdx row with
    | some p => if p < n then p :: acc else acc
    | none => acc) []

/-- Free-variable indices (lines 1765-1770): the columns `0..n-1` that hold
no pivot. -/
def freeVariablesOf (rref : List (List ℚ)) (n : ℕ) : List ℕ :=
  (List.range n).filter (fun j => j ∉ pivotColumnsOf rref n)

/-- Particular solution (lines 1772-1778): start from the all-zero vector
(free variables stay 0) and set each pivot position to the row's constants
entry. -/
def particularOf (rref : List (List ℚ)) (n : ℕ) : List ℚ :=
  rref.foldl (fun x row =>
    match firstNonZeroIdx row with
    | some p => if p < n then x.set p (row.getD n 0) else x
    | none => x) (List.replicate n 0)

/-- One basis vector of the solution space (lines 1781-1792): free variable
`fv` set to 1, and each pivot position `p ≠ fv` set to `-rref[row][fv]`,
rounded. -/
def basisVecOf (rref : List (List ℚ)) (n fv : ℕ) : List ℚ :=
  (rref.foldl (fun bx row =>
    match firstNonZeroIdx row with
    | some p => if p < n ∧ p ≠ fv then bx.set p (-(row.getD fv 0)) else bx
    | none => bx) ((List.replicate n 0).set fv 1)).map jsRound10

/-- `findParticularSolutionAndBasis` of the old file (lines 1749-1798):
the rounded particular solution and one basis vector per free variable. -/
def findParticularSolutionAndBasis (rref : List (List ℚ)) :
    List ℚ × List (List ℚ) :=
  ((particularOf rref ((rref.headD []).length - 1)).map jsRound10,
    (freeVariablesOf rref ((rref.headD []).length - 1)).map
      (basisVecOf rref ((rref.headD []).length - 1)))

/-- Result classification tags of the old `solveEquations` (the JS strings
`no-solution`, `unique-solution`, `infinite-solutions`). -/
inductive SolveType where
  | noSolution
  | uniqueSolution
  | infiniteSolutions
  deriving DecidableEq, Repr

/-- Result object of the old `solveEquations`: the fields the three branches
return (absent fields are `none`/`[]`). -/
structure SolveResult where
  type : SolveType
  rankA : ℕ
  rankAugmented : ℕ
  solution : Option (List ℚ)
  particularSolution : Option (List ℚ)
  basisSolutions : List (List ℚ)
  dimension : Option ℕ
  deriving DecidableEq, Repr

/-- `solveEquations` of the old file (lines 1611-1664): validate, build the
augmented matrix `[A|b]`, reduce it to RREF, compute `rankA` and
`rankAugmented`, and classify.  An empty coefficient matrix makes the JS
code crash with a `TypeError` when `reduceToRowEchelon` reads
`matrix[0].length`; that crash is modelled as the `TypeError` failure. -/
def solveEquations (A : List (List ℚ)) (b : List ℚ) : Except String SolveResult :=
  if A.length ≠ b.length then .error "矩阵行数必须与常数项长度相同"
  else if ¬ A.all (fun row => row.length = (A.headD []).length) then .error "矩阵必须为矩形"
  else if A.length = 0 then .error "TypeError"
  else
    let rref := reduceToRowEchelon (List.zipWith (fun row c => row ++ [c]) A b)
    let rankA := calculateRank A
    let rankAug := calculateRank rref
    if rankA < rankAug then
      .ok ⟨.noSolution, rankA, rankAug, none, none, [], none⟩
    else if rankA = rankAug ∧ rankA = (A.headD []).length then
      .ok ⟨.uniqueSolution, rankA, rankAug, some (gaussianElimination rref), none, [], none⟩
    else
      .ok ⟨.infiniteSolutions, rankA, rankAug, none,
        some (findParticularSolutionAndBasis rref).1,
        (findParticularSolutionAndBasis rref).2,
        some ((A.headD []).length - rankA)⟩

/-! Vector-family analysis and Gram–Schmidt of the old file.  Entries are
the exact rationals of rational mode (integer inputs convert to themselves;
all arithmetic below takes the `Fraction` branches of the source). -/

/-- Column-pivot search of the old `analyzeVectors` (lines 937-947): among
columns `k = j..m-1` keep the first one whose row-`i` entry has strictly
larger absolute value. -/
def findPivotCol (M : List (List ℚ)) (i j m : ℕ) : ℕ :=
  (List.range m).foldl
    (fun best k => if j ≤ k ∧ |getE M i k| > |getE M i best| then k else best) j

/-- Column swap of the old `analyzeVectors` (lines 959-970): swap entries
`a` and `b` in every row (and the same swap on the column-index list). -/
def swapColsL (M : List (List ℚ)) (a b : ℕ) : List (List ℚ) :=
  M.map (fun row => (row.set a (row.getD b 0)).set b (row.getD a 0))

/-- Column normalisation (lines 972-987): divide the entries of column `j`
in rows `k = i..n-1` by the pivot (`Fraction` division branch). -/
def normalizeColL (M : List (List ℚ)) (i j : ℕ) (pivot : ℚ) : List (List ℚ) :=
  M.mapIdx (fun k row => if i ≤ k then row.set j (row.getD j 0 / pivot) else row)

/-- Elimination of the other columns (lines 990-1034): every column `k ≠ j`
whose row-`i` entry is nonzero gets `column_k -= factor * column_j` on rows
`l = i..n-1`, with `factor = M[i][k] / M[i][j]` read before the column's
updates.  The JS loop is sequential in `k`; each `k` iteration reads only
column `j` and column `k`, so the fold below matches it. -/
def elimColsL (M : List (List ℚ)) (i j m : ℕ) : List (List ℚ) :=
  (List.range m).foldl (fun acc k =>
    if k ≠ j ∧ getE acc i k ≠ 0 then
      acc.mapIdx (fun l row =>
        if i ≤ l then
          row.set k (row.getD k 0 - getE acc i k / getE acc i j * row.getD j 0)
        else row)
    else acc) M

/-- Loop state of the old `analyzeVectors`: working matrix, original-column
index map, pivot columns, rank, and the column counter `j`. -/
structure AnalyzeStateO where
  M : List (List ℚ)
  colIndices : List ℕ
  pivotCols : List ℕ
  rank : ℕ
  j : ℕ

/-- One row-`i` iteration of the old `analyzeVectors` elimination
(lines 935-1039): pivot-column search, zero-pivot `continue`, column swap,
column normalisation, elimination, and the rank/pivot bookkeeping.  The JS
loop condition `j < m` is the guard (later iterations no-op once `j = m`). -/
def analyzeStep (m : ℕ) (st : AnalyzeStateO) (i : ℕ) : AnalyzeStateO :=
  if st.j < m then
    if getE st.M i (findPivotCol st.M i st.j m) = 0 then st
    else
      let M1 := swapColsL st.M st.j (findPivotCol st.M i st.j m)
      let ci1 := (st.colIndices.set st.j
          (st.colIndices.getD (findPivotCol st.M i st.j m) 0)).set
          (findPivotCol st.M i st.j m) (st.colIndices.getD st.j 0)
      let M2 := normalizeColL M1 i st.j (getE M1 i st.j)
      ⟨elimColsL M2 i st.j m, ci1, st.pivotCols ++ [st.j], st.rank + 1, st.j + 1⟩
  else st

/-- Result fields of the old `analyzeVectors` used by the claims (the
`maxIndependentSet` display list and the step trace are rendering-only). -/
structure AnalyzeResultO where
  isLinearlyIndependent : Bool
  rank : ℕ
  pivotColumns : List ℕ
  deriving DecidableEq, Repr

/-- The input validation shared verbatim by the old `analyzeVectors`
(lines 898-914) and `schmidtOrthonormalization` (lines 1315-1331):
non-empty family, non-empty first vector, equal dimensions. -/
def vectorFamilyOk (vectors : List (List ℚ)) : Bool :=
  vectors.length ≠ 0 ∧ (vectors.headD []).length ≠ 0 ∧
    vectors.all (fun v => v.length = (vectors.headD []).length)

/-- `analyzeVectors` of the OLD file (lines 896-1059): place the vectors as
matrix columns, run the column-pivot elimination over rows `i = 0..n-1`,
and report `rank` and `isLinearlyIndependent = (rank == m)`. -/
def analyzeVectorsOld (vectors : List (List ℚ)) : Except String AnalyzeResultO :=
  if ¬ vectorFamilyOk vectors then .error "向量集合不能为空"
  else
    let m := vectors.length
    let n := (vectors.headD []).length
    let matrix := (List.range n).map (fun i => vectors.map (fun v => v.getD i 0))
    let final := (List.range n).foldl (analyzeStep m) ⟨matrix, List.range m, [], 0, 0⟩
    .ok ⟨final.rank = m, final.rank, final.pivotCols⟩

/-- Dot product of the old file (lines 1067-1105) on exact entries: the
accumulated sum of componentwise products. -/
def dotQOld (v w : List ℚ) : ℚ := (List.zipWith (· * ·) v w).foldl (· + ·) 0

/-- Orthogonal vectors of the old `schmidtOrthonormalization` GS phase
(lines 1374-1429): each `u_i` starts as `v_i` and has its projection onto
every previous orthogonal vector subtracted; the projection coefficient
divides `dot(u, orth_j)` (the current partially reduced `u`) by
`dot(orth_j, orth_j)`, and a projection with numerically zero denominator
is skipped. -/
def schmidtOrthogonalOld (vectors : List (List ℚ)) : List (List ℚ) :=
  vectors.foldl (fun orth v =>
    orth ++ [orth.foldl (fun u oj =>
      if dotQOld oj oj = 0 then u
      else List.zipWith (fun x p => x - p) u
        (oj.map (fun c => dotQOld u oj / dotQOld oj oj * c))) v]) []

/-- Result fields of the old `schmidtOrthonormalization` relevant to the
claim.  The `orthonormalVectors` (float normalisations involving real
square roots) are display companions of `orthogonalVectors` and are not
modelled. -/
structure SchmidtResultO where
  isLinearlyIndependent : Bool
  rank : ℕ
  orthogonalVectors : List (List ℚ)
  deriving DecidableEq, Repr

/-- `schmidtOrthonormalization` of the OLD file (lines 1313-1438): after
the shared validation it calls `analyzeVectors`; a rank-deficient family
returns EARLY with `isLinearlyIndependent: false` and no orthogonal output;
otherwise the GS phase runs. -/
def schmidtOrthonormalizationOld (vectors : List (List ℚ)) :
    Except String SchmidtResultO :=
  if ¬ vectorFamilyOk vectors then .error "向量集合不能为空"
  else
    match analyzeVectorsOld vectors with
    | .error e => .error e
    | .ok a =>
      if ¬ a.isLinearlyIndependent then .ok ⟨false, a.rank, []⟩
      else .ok ⟨true, vectors.length, schmidtOrthogonalOld vectors⟩

/-- Sum of squares computed inside the old `vectorNorm` (lines 1223-1274);
both its all-float branch and its rational branch sum the entry squares. -/
def sumSquares (v : List ℚ) : ℚ := (v.map (fun x => x * x)).foldl (· + ·) 0

open Classical in
/-- `normalizeVector` of the OLD file (lines 1281-1306): compute the float
norm `sqrt(Σ vᵢ²)` (real square root of the exact sum), throw
`零向量无法单位化` when `|norm| < 1e-10`, and otherwise return the float
vector scaled by `1 / norm` — the result type `List ℝ` records that the
output is numeric, never rational. -/
noncomputable def normalizeVectorOld (v : List ℚ) : Except String (List ℝ) :=
  if |Real.sqrt ((sumSquares v : ℚ) : ℝ)| < 1 / 10 ^ 10 then
    .error "零向量无法单位化"
  else .ok (v.map (fun el => (el : ℝ) * (1 / Real.sqrt ((sumSquares v : ℚ) : ℝ))))

end OldOps

namespace NewOps

/-! Algorithms of `AdvancedAlgebraCalculator/lib/matrix-operations.js`
(the NEW file) over `List (List ℚ)` working matrices; in the default
rational mode every entry is a `Fraction`, whose exact value the rationals
record, and the file's `isZero` on a `Fraction` is the exact test
`numerator === 0`. -/

/-- Pivot search of the new `calculateDeterminant` (lines 443-453): same
max-absolute-value scan over rows `i..n-1` as the old file. -/
def findPivotRowN (M : List (List ℚ)) (i n : ℕ) : ℕ :=
  (List.range n).foldl
    (fun best j =>
      if i ≤ j ∧ |OldOps.getE M j i| > |OldOps.getE M best i| then j else best) i

/-- Elimination below the pivot row in the new `calculateDeterminant`
(lines 484-503): rows `j > i` get `row[k] -= factor * pivotRow[k]` for
`k = i..n-1` with `factor = M[j][i] / M[i][i]` precomputed. -/
def elimBelowRowsN (M : List (List ℚ)) (i : ℕ) : List (List ℚ) :=
  M.mapIdx (fun j row =>
    if i < j then
      row.mapIdx (fun k x =>
        if i ≤ k then
          x - row.getD i 0 / OldOps.getE M i i * (M.getD i []).getD k 0
        else x)
    else row)

/-- Main loop of the new `calculateDeterminant` (lines 441-504): the `det`
list records a `-1` per row swap and each pivot; an exactly-zero pivot
short-circuits (`none`, which the source turns into result 0). -/
def detListGo (n : ℕ) : ℕ → ℕ → List (List ℚ) → List ℚ → Option (List ℚ)
  | 0, _, _, acc => some acc
  | gas + 1, i, M, acc =>
    if i < n then
      let p := findPivotRowN M i n
      let M1 := if p = i then M else OldOps.swapRowsL M i p
      let acc1 := if p = i then acc else acc ++ [-1]
      if OldOps.getE M1 i i = 0 then none
      else detListGo n gas (i + 1) (elimBelowRowsN M1 i) (acc1 ++ [OldOps.getE M1 i i])
    else some acc

/-- Result of the new `calculateDeterminant` (lines 507-527): 0 on the
short circuit, otherwise the ordered product of the recorded entries.  (The
JS accumulation loop coerces the interleaved number `-1`s and `Fraction`
pivots; it is modelled as exact rational multiplication, which is what the
JS computes whenever the running product is integral at each `-1` — true
wherever this definition is evaluated below, since no swaps occur there.) -/
def detResult (M : List (List ℚ)) (n : ℕ) : ℚ :=
  match detListGo n n 0 M [] with
  | none => 0
  | some acc => acc.foldl (· * ·) 1

/-- `generateCombinations` (new file lines 341-359; the old file's
recursive version, lines 618-637, produces the same list): all size-`k`
subsets of the index list in include-first backtracking order. -/
def generateCombinations : List ℕ → ℕ → List (List ℕ)
  | _, 0 => [[]]
  | [], _ + 1 => []
  | a :: rest, k + 1 =>
    (generateCombinations rest k).map (a :: ·) ++ generateCombinations rest (k + 1)

/-- `extractPrincipalMinor` (new file lines 367-377): the submatrix on the
given row-and-column index set. -/
def extractPrincipalMinor (M : List (List ℚ)) (indices : List ℕ) :
    List (List ℚ) :=
  indices.map (fun i => indices.map (fun j => OldOps.getE M i j))

/-- The JS values that flow through the new `calculatePrincipalMinorsSum`
accumulator and into the pushed coefficients: a number, a string, or a
`Fraction` object. -/
inductive JSVal where
  | num (q : ℚ)
  | str (s : String)
  | frac (f : Frac)
  deriving DecidableEq, Repr

/-- JS `ToString` on a number, modelled for the integral values that are
rendered in this development (the only number `jsAdd` ever renders is the
accumulator while it still holds its initial `0`; rendering of
non-integral floats is outside the model). -/
def jsNumToString (q : ℚ) : String := toString q.num

/-- JS `+` as it runs in `sum += det.result` (new file line 404).  A
`Fraction` object has no own `valueOf`, so ToPrimitive falls back to its
`toString` (`Frac.render`); once either operand is a string, `+`
concatenates.  Only number + number adds numerically. -/
def jsAdd (a b : JSVal) : JSVal :=
  match a, b with
  | .num x, .num y => .num (x + y)
  | .num x, .str s => .str (jsNumToString x ++ s)
  | .num x, .frac f => .str (jsNumToString x ++ f.render)
  | .str s, .num y => .str (s ++ jsNumToString y)
  | .str s, .str t => .str (s ++ t)
  | .str s, .frac f => .str (s ++ f.render)
  | .frac f, .num y => .str (f.render ++ jsNumToString y)
  | .frac f, .str t => .str (f.render ++ t)
  | .frac f, .frac g => .str (f.render ++ g.render)

/-- The `result` field of the new `calculateDeterminant` as the JS value it
is: the number `0` on the zero-pivot short circuit, otherwise the
`Fraction` object accumulated by the `Fraction.multiply` chain — a reduced
object with positive denominator whose value is the ordered product of the
recorded entries, so its two fields are given by `Frac.ofRat` of that
product.  (As for `detResult`: a row swap would interpose a number `-1` in
the chain; none occurs where this definition is evaluated below.) -/
def detResultVal (M : List (List ℚ)) (n : ℕ) : JSVal :=
  match detListGo n n 0 M [] with
  | none => .num 0
  | some acc => .frac (Frac.ofRat (acc.foldl (· * ·) 1))

/-- `calculatePrincipalMinorsSum` of the NEW file (lines 385-408) as the JS
value it actually computes: the number 1 for `k = 0`, the number 0 for
`k > n`, else the fold of `sum += det.result` from the number 0 over all
`k`-subsets' principal-minor determinants.  In rational mode each
`det.result` is a `Fraction` object, so the first `+=` already turns `sum`
into the string `"0" ++ toString(det.result)` and every later `+=`
concatenates; the value returned is a string, not a number. -/
def calculatePrincipalMinorsSum (M : List (List ℚ)) (k : ℕ) : JSVal :=
  if k = 0 then .num 1
  else if k > M.length then .num 0
  else ((generateCombinations (List.range M.length) k).map
    (fun combo => detResultVal (extractPrincipalMinor M combo) k)).foldl
      jsAdd (.num 0)

/-- Coefficient values pushed by the new
`calculateCharacteristicPolynomial` (lines 287-333): for `k = 0..n` it
pushes `calculatePrincipalMinorsSum(A, k)` directly — with NO `(-1)^k` sign
factor, and as the number-or-string JS values just described.  (Input
validation throws on empty/non-square matrices; the claims evaluate a
square input.) -/
def calcCharPolyCoeffVals (M : List (List ℚ)) : List JSVal :=
  (List.range (M.length + 1)).map (fun k => calculatePrincipalMinorsSum M k)

/-- `parseInt` on the well-formed decimal strings that occur here: an
optional leading minus, then decimal digits (JS `parseInt("023") = 23`). -/
def parseIntStr (s : String) : Int :=
  match s.data with
  | '-' :: rest => -(rest.foldl (fun a c => a * 10 + (c.toNat - 48)) 0 : ℕ)
  | l => (l.foldl (fun a c => a * 10 + (c.toNat - 48)) 0 : ℕ)

/-- The `Fraction` string constructor (new file lines 11-21): a string
matching `p/q` parses both parts, any other well-formed numeric string is
`parseInt` over denominator 1; both pairs then go through the reducing
constructor. -/
def fracOfString (s : String) : Frac :=
  if s.data.contains '/' then
    mkFraction (parseIntStr (String.mk (s.data.takeWhile (fun c => c ≠ '/'))))
      (parseIntStr (String.mk ((s.data.dropWhile (fun c => c ≠ '/')).drop 1)))
  else mkFraction (parseIntStr s) 1

/-- `formatNumber(value, 'rational')` of the new file (lines 195-216) with
`useFractions = true`, applied to a coefficient value: a number goes
through the scaled `toFraction`, a string through the `Fraction` string
constructor, a `Fraction` object is used as is; the resulting object
renders as `num` or `num/den` (`Frac.render`). -/
def formatNumberVal (v : JSVal) : String :=
  match v with
  | .num q => (toFractionNew q).render
  | .str s => (fracOfString s).render
  | .frac f => f.render

/-- The formatted `coefficients` array actually returned by the new
`calculateCharacteristicPolynomial` (its final `formatNumber` mapping,
lines 323-331). -/
def calcCharPolyFormatted (M : List (List ℚ)) : List String :=
  (calcCharPolyCoeffVals M).map formatNumberVal

/-- Modelled from the spec: the exact sum of the determinants of all
`k × k` principal minors — the Σ of the claim's formula.  (The OLD file's
`calculatePrincipalMinorsSum`, lines 667-696, computes exactly this value:
its accumulator starts as `new Fraction(0)` and advances with
`Fraction.add`, so no string coercion occurs there.) -/
def specMinorsSum (M : List (List ℚ)) (k : ℕ) : ℚ :=
  if k = 0 then 1
  else ((generateCombinations (List.range M.length) k).map
    (fun combo => detResult (extractPrincipalMinor M combo) k)).foldl (· + ·) 0

/-- Modelled from the spec: the claimed characteristic-polynomial
coefficients — the coefficient of `x^(n-r)` is `(-1)^r` times the sum of
all `r × r` principal minors' determinants (this is also what the old
file's general branch, lines 517-533, and its `n = 2` fast path compute).
Stated only to compare against `calcCharPolyCoeffVals` and
`calcCharPolyFormatted`. -/
def specCharPolyCoeffs (M : List (List ℚ)) : List ℚ :=
  (List.range (M.length + 1)).map (fun r => (-1) ^ r * specMinorsSum M r)

/-- Pivot-row search of the new `reduceToRowEchelon` (lines 1017-1027): the
first row `≥ i` with a nonzero entry in the pivot column; `none` makes the
source advance the column without advancing the row.  Structural fuel,
called with `fuel = m`. -/
def findRowFromN (M : List (List ℚ)) (pc m : ℕ) : ℕ → ℕ → Option ℕ
  | 0, _ => none
  | fuel + 1, i =>
    if i < m then
      if OldOps.getE M i pc = 0 then findRowFromN M pc m fuel (i + 1) else some i
    else none

/-- Elimination of the other rows in the new `reduceToRowEchelon`
(lines 1046-1060): rows `j ≠ i` with nonzero pivot-column entry get
`row[k] -= factor * pivotRow[k]` for `k = pivotCol..n-1`, with
`factor = row[pivotCol]` (the pivot row is already normalised to 1). -/
def elimOthersN (M : List (List ℚ)) (i pc : ℕ) : List (List ℚ) :=
  M.mapIdx (fun j row =>
    if j ≠ i ∧ ¬ (row.getD pc 0 = 0) then
      row.mapIdx (fun k x =>
        if pc ≤ k then x - row.getD pc 0 * (M.getD i []).getD k 0 else x)
    else row)

/-- Main loop of the new `reduceToRowEchelon` (lines 1004-1066): row index
`i` and `pivotCol`; an all-zero pivot column advances the column only (the
JS `pivotCol++; i--; continue`); otherwise the found row is swapped up
unconditionally, normalised by its pivot from the pivot column rightwards,
and every other row is eliminated.  `pivotCol` increases every iteration,
so fuel `n` suffices. -/
def rrefGoN (m n : ℕ) : ℕ → ℕ → ℕ → List (List ℚ) → List (List ℚ)
  | 0, _, _, M => M
  | gas + 1, i, pc, M =>
    if i < m ∧ pc < n then
      match findRowFromN M pc m m i with
      | none => rrefGoN m n gas i (pc + 1) M
      | some pr =>
        let M1 := OldOps.swapRowsL M i pr
        let M2 := M1.set i (OldOps.normalizeRow (M1.getD i []) pc (OldOps.getE M1 i pc))
        rrefGoN m n gas (i + 1) (pc + 1) (elimOthersN M2 i pc)
    else M

/-- `reduceToRowEchelon` of the new file (lines 1004-1066). -/
def reduceToRowEchelonN (M : List (List ℚ)) : List (List ℚ) :=
  rrefGoN M.length (M.headD []).length (M.headD []).length 0 0 M

/-- `calculateRank` of the new file (lines 1073-1092): count the rows of
its argument (already reduced by the caller) with any nonzero entry. -/
def calculateRankN (M : List (List ℚ)) : ℕ :=
  M.countP (fun row => ¬ row.all (fun v => v = 0))

/-- `findPivotColumns` of the new file (lines 1204-1217): the first-nonzero
index of each row, kept when strictly right of the previous pivot column
(`lastPivotCol` starts at `-1`). -/
def findPivotColumns (rref : List (List ℚ)) : List ℕ :=
  (rref.foldl (fun st row =>
    match row.findIdx? (fun v => ¬ (v = 0)) with
    | some p => if st.2 < (p : Int) then (st.1 ++ [p], (p : Int)) else st
    | none => st) (([] : List ℕ), (-1 : Int))).1

/-- `calculateLinearRelation` of the new file (lines 1225-1228): the stub —
it ignores both arguments and returns the empty list. -/
def calculateLinearRelation (_vectors : List (List ℚ)) (_pivotCols : List ℕ) :
    List (List ℚ) := []

/-- Result fields of the new `analyzeVectors` (the step trace and the
string-formatting of `basis`/`relation` are rendering-only and omitted). -/
structure AnalyzeResultN where
  rank : ℕ
  isLinearlyIndependent : Bool
  basis : List (List ℚ)
  relation : List (List ℚ)
  deriving DecidableEq, Repr

/-- `analyzeVectors` of the NEW file (lines 534-616): validation, vectors
as matrix columns, RREF, rank; the independent branch returns the input
vectors as the basis, the dependent branch takes the pivot columns' vectors
as the basis and fills `relation` from the `calculateLinearRelation` stub. -/
def analyzeVectors (vectors : List (List ℚ)) : Except String AnalyzeResultN :=
  if vectors.length = 0 then .error "向量组不能为空"
  else if (vectors.headD []).length = 0 then .error "向量不是有效的数组"
  else
    let n := (vectors.headD []).length
    let rref := reduceToRowEchelonN ((List.range n).map (fun i => vectors.map (fun v => v.getD i 0)))
    let rank := calculateRankN rref
    if rank = vectors.length then
      .ok ⟨rank, true, vectors, []⟩
    else
      .ok ⟨rank, false, (findPivotColumns rref).map (fun c => vectors.getD c []),
        calculateLinearRelation vectors (findPivotColumns rref)⟩

/-- Dot product of the new file (lines 624-640). -/
def dotQ (v w : List ℚ) : ℚ := (List.zipWith (· * ·) v w).foldl (· + ·) 0

/-- Gram–Schmidt of the NEW file (lines 730-788), orthogonal phase: with NO
linear-independence pre-analysis and no early return, each `u_i` is `v_i`
minus the projections `dot(v_i, u_j) / dot(u_j, u_j) * u_j` onto every
previous orthogonal vector — `dot` always of the ORIGINAL `v_i` (line 759).
(The JS `dot / normSq` coerces two `Fraction`s; exact division is what it
computes on the integer values it is evaluated at below.)  The orthonormal
phase (float normalisation, skipped when a norm is numerically zero) is
rendering of these vectors and involves real square roots; the claim
concerns the orthogonal output. -/
def schmidtOrthogonalN (vectors : List (List ℚ)) : List (List ℚ) :=
  vectors.foldl (fun orth v =>
    orth ++ [orth.foldl (fun u oj =>
      List.zipWith (fun x p => x - p) u
        (oj.map (fun c => dotQ v oj / dotQ oj oj * c))) v]) []

end NewOps

/-- Scenario working matrix `[[1,2],[3,4]]` as a JS-style total matrix. -/
def mat12 : OldOps.Mat :=
  fun i j =>
    if i = 0 then (if j = 0 then 1 else 2)
    else if i = 1 then (if j = 0 then 3 else 4)
    else 0


/-! ### Theorems -/

section MkFractionLemmas

theorem gcd_int_ne_zero {n d : Int} (hd : d ≠ 0) : (Int.gcd n d : Int) ≠ 0 := by
  simp only [ne_eq, Int.natCast_eq_zero, Int.gcd_eq_zero_iff, not_and]
  intro _; exact hd

theorem mkFraction_den_pos (n d : Int) (hd : d ≠ 0) : 0 < (mkFraction n d).den := by
  unfold mkFraction
  set g : Int := (Int.gcd n d : Int) with hg
  have hgdvd : g ∣ d := Int.gcd_dvd_right
  have hgne : g ≠ 0 := gcd_int_ne_zero hd
  have hd1 : d / g ≠ 0 := by
    intro h
    obtain ⟨k, hk⟩ := hgdvd
    rw [hk, Int.mul_ediv_cancel_left _ hgne] at h
    exact hd (by rw [hk, h, mul_zero])
  by_cases hneg : d / g < 0
  · simp only [hneg, if_pos]
    omega
  · simp only [hneg, if_neg, not_false_iff]
    omega

theorem mkFraction_reduced (n d : Int) (hd : d ≠ 0) :
    Int.gcd (mkFraction n d).num (mkFraction n d).den = 1 := by
  unfold mkFraction
  have hgpos : 0 < Int.gcd n d := by
    rcases Nat.eq_zero_or_pos (Int.gcd n d) with h | h
    · exact absurd ((Int.gcd_eq_zero_iff).mp h).2 hd
    · exact h
  have hred := Int.gcd_div_gcd_div_gcd (i := n) (j := d) hgpos
  by_cases hneg : d / (Int.gcd n d : Int) < 0
  · simp only [hneg, if_pos]
    show Int.gcd (-(n / (Int.gcd n d : Int))) (-(d / (Int.gcd n d : Int))) = 1
    rw [Int.gcd, Int.natAbs_neg, Int.natAbs_neg]
    exact hred
  · simp only [hneg, if_neg, not_false_iff]
    exact hred

theorem mkFraction_value (n d : Int) (hd : d ≠ 0) :
    (mkFraction n d).num * d = n * (mkFraction n d).den := by
  unfold mkFraction
  set g : Int := (Int.gcd n d : Int) with hg
  have hgne : g ≠ 0 := gcd_int_ne_zero hd
  obtain ⟨a, ha⟩ : g ∣ n := Int.gcd_dvd_left
  obtain ⟨b, hb⟩ : g ∣ d := Int.gcd_dvd_right
  have hna : n / g = a := by rw [ha, Int.mul_ediv_cancel_left _ hgne]
  have hdb : d / g = b := by rw [hb, Int.mul_ediv_cancel_left _ hgne]
  by_cases hneg : d / g < 0
  · rw [if_pos hneg]
    show -(n / g) * d = n * -(d / g)
    rw [hna, hdb, ha, hb]
    ring
  · rw [if_neg hneg]
    show (n / g) * d = n * (d / g)
    rw [hna, hdb, ha, hb]
    ring

theorem mkFraction_zero (d : Int) (hd : d ≠ 0) : mkFraction 0 d = ⟨0, 1⟩ := by
  unfold mkFraction
  have habs : (Int.gcd 0 d : Int) = |d| := by
    rw [Int.gcd, Int.natAbs_zero, Nat.gcd_zero_left, Int.abs_eq_natAbs]
  rcases lt_or_gt_of_ne hd with hneg | hpos
  · have h1 : d / (Int.gcd 0 d : Int) = -1 := by
      rw [habs, abs_of_neg hneg]
      rw [Int.ediv_neg, Int.ediv_self hd]
    rw [h1]
    norm_num
  · have h1 : d / (Int.gcd 0 d : Int) = 1 := by
      rw [habs, abs_of_pos hpos, Int.ediv_self hd]
    rw [h1]
    norm_num

theorem mkFraction_valid (n d : Int) (hd : d ≠ 0) : (mkFraction n d).valid :=
  ⟨mkFraction_den_pos n d hd, mkFraction_reduced n d hd⟩

end MkFractionLemmas


theorem cfLoop_step_pos (prec fuel : ℕ) (r : ℚ) (nu de tn td : Int)
    (h : r > 1 / 10 ^ prec) :
    cfLoop prec (fuel + 1) r nu de tn td =
      cfLoop prec fuel (r⁻¹ - (⌊r⁻¹⌋ : Int)) (⌊r⁻¹⌋ * nu + tn) (⌊r⁻¹⌋ * de + td) nu de := by
  simp only [cfLoop]
  rw [if_pos h]

theorem cfLoop_step_neg (prec fuel : ℕ) (r : ℚ) (nu de tn td : Int)
    (h : ¬ r > 1 / 10 ^ prec) :
    cfLoop prec (fuel + 1) r nu de tn td = (nu, de) := by
  simp only [cfLoop]
  rw [if_neg h]


section FractionClaims

/-- C1 (amended): every `Fraction` built from an integer pair `(p, q)` with
`q ≠ 0` (string construction reduces to the same call after parsing) has a
positive denominator, is fully reduced, stores the value `p/q`, and
represents zero as `0/1`; `add`, `subtract` and `multiply` of valid
fractions are valid; and a `divide` result is valid provided the divisor's
numerator is nonzero (the new implementation performs no zero-divisor
check, see the counterexample). -/
theorem fraction_construction_invariant (p q : Int) (hq : q ≠ 0) (a b : Frac)
    (ha : a.valid) (hb : b.valid) :
    ((mkFraction p q).valid ∧
      (mkFraction p q).num * q = p * (mkFraction p q).den ∧
      (p = 0 → mkFraction p q = ⟨0, 1⟩)) ∧
    (a.add b).valid ∧ (a.subtract b).valid ∧ (a.multiply b).valid ∧
    (b.num ≠ 0 → (a.divide b).valid) := by
  have had : a.den ≠ 0 := by exact_mod_cast ne_of_gt ha.1
  have hbd : b.den ≠ 0 := by exact_mod_cast ne_of_gt hb.1
  have habd : a.den * b.den ≠ 0 := mul_ne_zero had hbd
  refine ⟨⟨mkFraction_valid p q hq, mkFraction_value p q hq, ?_⟩, ?_, ?_, ?_, ?_⟩
  · intro hp; subst hp; exact mkFraction_zero q hq
  · exact mkFraction_valid _ _ habd
  · exact mkFraction_valid _ _ habd
  · exact mkFraction_valid _ _ habd
  · intro hbn
    exact mkFraction_valid _ _ (mul_ne_zero had hbn)

/-- C1 witness: the invariant theorem instantiated at `p = 6, q = -4` and at
the valid fractions `1/2` and `-2/3`, with every hypothesis discharged by
evaluation. -/
theorem fraction_construction_invariant_witness :
    ((mkFraction 6 (-4)).valid ∧
      (mkFraction 6 (-4)).num * (-4) = 6 * (mkFraction 6 (-4)).den ∧
      ((6 : Int) = 0 → mkFraction 6 (-4) = ⟨0, 1⟩)) ∧
    ((mkFraction 1 2).add (mkFraction (-2) 3)).valid ∧
    ((mkFraction 1 2).subtract (mkFraction (-2) 3)).valid ∧
    ((mkFraction 1 2).multiply (mkFraction (-2) 3)).valid ∧
    ((mkFraction (-2) 3).num ≠ 0 → ((mkFraction 1 2).divide (mkFraction (-2) 3)).valid) :=
  fraction_construction_invariant 6 (-4) (by decide)
    (mkFraction 1 2) (mkFraction (-2) 3) (by decide) (by decide)

/-- C1 counterexample: the new implementation's `divide` applied to the
divisor `0/1` yields a `Fraction` whose denominator is `0`, refuting the
claimed invariant `denominator > 0` for results of `divide`. -/
theorem divide_by_zero_breaks_invariant :
    ((mkFraction 1 2).divide (mkFraction 0 1)).den = 0 := by decide

/-- C5: the new implementation's `divide` (lines 109-116) performs no
`DivisionByZero` check: dividing by the zero fraction silently returns an
invalid `Fraction` with denominator `0` instead of failing.  The old
implementation's `divide` (lines 165-173) behaves as the claim states: it
errors exactly when the divisor's numerator is zero, and otherwise returns
the exact reduced quotient. -/
theorem divide_division_by_zero_check (a b : Frac) (ha : a.valid) (_hb : b.valid) :
    ((mkFraction 1 2).divide (mkFraction 0 1)).den = 0 ∧
    (b.num = 0 → a.divideOld b = .error "除数不能为零") ∧
    (b.num ≠ 0 → ∃ f, a.divideOld b = .ok f ∧ f.valid ∧
      f.num * (a.den * b.num) = (a.num * b.den) * f.den) := by
  refine ⟨by decide, ?_, ?_⟩
  · intro h
    simp [Frac.divideOld, h]
  · intro h
    have had : a.den ≠ 0 := by exact_mod_cast ne_of_gt ha.1
    refine ⟨mkFraction (a.num * b.den) (a.den * b.num), ?_, ?_, ?_⟩
    · simp [Frac.divideOld, h]
    · exact mkFraction_valid _ _ (mul_ne_zero had h)
    · exact mkFraction_value _ _ (mul_ne_zero had h)

/-- C5 witness: the divide theorem instantiated at the valid fractions `1/2`
and `2/3`, with the hypotheses discharged by evaluation. -/
theorem divide_division_by_zero_check_witness :
    ((mkFraction 1 2).divide (mkFraction 0 1)).den = 0 ∧
    ((mkFraction 2 3).num = 0 →
      (mkFraction 1 2).divideOld (mkFraction 2 3) = .error "除数不能为零") ∧
    ((mkFraction 2 3).num ≠ 0 →
      ∃ f, (mkFraction 1 2).divideOld (mkFraction 2 3) = .ok f ∧ f.valid ∧
        f.num * ((mkFraction 1 2).den * (mkFraction 2 3).num) =
          ((mkFraction 1 2).num * (mkFraction 2 3).den) * f.den) :=
  divide_division_by_zero_check (mkFraction 1 2) (mkFraction 2 3) (by decide) (by decide)

/-- C6: the float-to-fraction constructions do not behave as claimed.  The
old implementation's continued-fraction loop omits the integer-part
convergent, so `fromFloat(0.5)` evaluates to `2/1` instead of the claimed
`1/2` (it approximates the reciprocal of the fractional part), while `7`
does map to `7/1`; the new implementation is exactly the brute-force scaled
fraction `round(value * 10^10) / 10^10` the claim rules out (which lands on
`1/2` only because the constructor reduces it). -/
theorem fromFloat_continued_fraction_bug :
    fromFloatOld (1 / 2 : ℚ) 10 = ⟨2, 1⟩ ∧
    fromFloatOld (7 : ℚ) 10 = ⟨7, 1⟩ ∧
    toFractionNew (1 / 2 : ℚ) = ⟨1, 2⟩ ∧
    toFractionNew (7 : ℚ) = ⟨7, 1⟩ := by
  have hloop : cfLoop 10 20 ((1 / 2 : ℚ) - ((⌊(1 / 2 : ℚ)⌋ : Int) : ℚ)) 1 0 0 1 = (2, 1) := by
    have hfl : (⌊(1 / 2 : ℚ)⌋ : Int) = 0 := by norm_num
    have hr0 : (1 / 2 : ℚ) - ((⌊(1 / 2 : ℚ)⌋ : Int) : ℚ) = 1 / 2 := by rw [hfl]; norm_num
    rw [hr0, cfLoop_step_pos 10 19 (1 / 2 : ℚ) 1 0 0 1 (by norm_num)]
    have hinv : ((1 / 2 : ℚ))⁻¹ = 2 := by norm_num
    rw [hinv]
    have hfl2 : (⌊(2 : ℚ)⌋ : Int) = 2 := by norm_num
    rw [hfl2]
    have hr1 : (2 : ℚ) - ((2 : Int) : ℚ) = 0 := by norm_num
    rw [hr1]
    rw [cfLoop_step_neg 10 18 0 (2 * 1 + 0) (2 * 0 + 1) 1 0 (by norm_num)]
    norm_num
  refine ⟨?_, ?_, ?_, ?_⟩
  · rw [fromFloatOld, if_neg (by norm_num), hloop]
    norm_num
    decide
  · rw [fromFloatOld, if_pos (by norm_num)]
    have : (7 : ℚ).num = 7 := by norm_num
    rw [this]
    decide
  · have h : jsRound ((1 / 2 : ℚ) * 10 ^ 10) = 5000000000 := by
      norm_num [jsRound]
    rw [toFractionNew, h]
    decide
  · have h : jsRound ((7 : ℚ) * 10 ^ 10) = 70000000000 := by
      norm_num [jsRound]
    rw [toFractionNew, h]
    decide

end FractionClaims


namespace OldOps

theorem findPivotRow_ge (M : Mat) (i n : ℕ) : i ≤ findPivotRow M i n := by
  unfold findPivotRow
  generalize List.range n = l
  suffices h : ∀ init : ℕ, i ≤ init →
      i ≤ l.foldl (fun best j => if i ≤ j ∧ |M j i| > |M best i| then j else best) init from
    h i le_rfl
  induction l with
  | nil => intro init h; exact h
  | cons x xs ih =>
    intro init h
    simp only [List.foldl_cons]
    by_cases hx : i ≤ x ∧ |M x i| > |M init i|
    · rw [if_pos hx]; exact ih x hx.1
    · rw [if_neg hx]; exact ih init h

theorem swapRows_partTri {M : Mat} {i : ℕ} (hM : PartTri M i) (a b : ℕ)
    (ha : i ≤ a) (hb : i ≤ b) : PartTri (swapRows M a b) i := by
  intro r c hcr hci
  unfold swapRows
  by_cases hra : r = a
  · rw [if_pos hra]
    exact hM b c (lt_of_lt_of_le hci hb) hci
  · rw [if_neg hra]
    by_cases hrb : r = b
    · rw [if_pos hrb]
      exact hM a c (lt_of_lt_of_le hci ha) hci
    · rw [if_neg hrb]
      exact hM r c hcr hci

theorem elimBelow_partTri {M : Mat} {i : ℕ} (hM : PartTri M i)
    (hp : M i i ≠ 0) : PartTri (elimBelow M i) (i + 1) := by
  intro r c hcr hci
  unfold elimBelow
  rcases Nat.lt_succ_iff_lt_or_eq.mp hci with hlt | heq
  · have : ¬ (i < r ∧ i ≤ c) := by
      rintro ⟨_, hic⟩; omega
    rw [if_neg this]
    exact hM r c hcr hlt
  · subst heq
    have hcond : c < r ∧ c ≤ c := ⟨hcr, le_rfl⟩
    rw [if_pos hcond]
    rw [div_mul_cancel₀ _ hp]
    ring

theorem detGo_partTri (n : ℕ) :
    ∀ gas i M swaps c T s' c', n ≤ gas + i → PartTri M i →
      detGo n gas i M swaps c = some (T, s', c') → PartTri T n := by
  intro gas
  induction gas with
  | zero =>
    intro i M swaps c T s' c' hni hM hrun
    simp only [detGo] at hrun
    obtain ⟨rfl, _, _⟩ : M = T ∧ swaps = s' ∧ c = c' := by
      injection hrun with h; injection h with h1 h2; injection h2 with h3 h4
      exact ⟨h1, h3, h4⟩
    intro r c2 hcr hcn
    exact hM r c2 hcr (lt_of_lt_of_le hcn (by omega))
  | succ gas ih =>
    intro i M swaps c T s' c' hni hM hrun
    simp only [detGo] at hrun
    by_cases hin : i < n
    · rw [if_pos hin] at hrun
      set p := findPivotRow M i n with hp
      set M1 := if p = i then M else swapRows M i p with hM1
      by_cases hz : M1 i i = 0
      · rw [if_pos hz] at hrun; exact absurd hrun (by simp)
      · rw [if_neg hz] at hrun
        have hM1tri : PartTri M1 i := by
          rw [hM1]
          by_cases hpi : p = i
          · rw [if_pos hpi]; exact hM
          · rw [if_neg hpi]
            exact swapRows_partTri hM i p le_rfl (findPivotRow_ge M i n)
        exact ih (i + 1) _ _ _ T s' c' (by omega) (elimBelow_partTri hM1tri hz) hrun
    · rw [if_neg hin] at hrun
      obtain ⟨rfl, _, _⟩ : M = T ∧ swaps = s' ∧ c = c' := by
        injection hrun with h; injection h with h1 h2; injection h2 with h3 h4
        exact ⟨h1, h3, h4⟩
      intro r c2 hcr hcn
      exact hM r c2 hcr (lt_of_lt_of_le hcn (by omega))

theorem detGo_stepCount (n : ℕ) :
    ∀ gas i M swaps c T s' c', n ≤ gas + i →
      detGo n gas i M swaps c = some (T, s', c') →
      2 * c' = 2 * c + (n - i) * (n - i - 1) := by
  intro gas
  induction gas with
  | zero =>
    intro i M swaps c T s' c' hni hrun
    simp only [detGo] at hrun
    obtain ⟨_, _, rfl⟩ : M = T ∧ swaps = s' ∧ c = c' := by
      injection hrun with h; injection h with h1 h2; injection h2 with h3 h4
      exact ⟨h1, h3, h4⟩
    have : n - i = 0 := by omega
    rw [this]; ring
  | succ gas ih =>
    intro i M swaps c T s' c' hni hrun
    simp only [detGo] at hrun
    by_cases hin : i < n
    · rw [if_pos hin] at hrun
      by_cases hz : (if findPivotRow M i n = i then M else swapRows M i (findPivotRow M i n)) i i = 0
      · rw [if_pos hz] at hrun; exact absurd hrun (by simp)
      · rw [if_neg hz] at hrun
        have h2 := ih (i + 1) _ _ _ T s' c' (by omega) hrun
        have ha : n - (i + 1) = n - i - 1 := by omega
        rw [ha] at h2
        obtain ⟨b, hb⟩ : ∃ b, n - i = b + 1 := ⟨n - i - 1, by omega⟩
        rw [hb]
        have hb1 : n - i - 1 = b := by omega
        rw [hb1] at h2
        have hb2 : b + 1 - 1 = b := by omega
        rw [hb2]
        cases b with
        | zero => simpa using h2
        | succ k =>
          have h3 : k + 1 - 1 = k := by omega
          rw [h3] at h2
          rw [h2]
          ring
    · rw [if_neg hin] at hrun
      obtain ⟨_, _, rfl⟩ : M = T ∧ swaps = s' ∧ c = c' := by
        injection hrun with h; injection h with h1 h2; injection h2 with h3 h4
        exact ⟨h1, h3, h4⟩
      have : n - i = 0 := by omega
      rw [this]; ring

theorem sign_flip_eq_pow (q : ℚ) (s : ℕ) :
    (if s % 2 ≠ 0 then q * (-1) else q) = (-1) ^ s * q := by
  rcases Nat.even_or_odd s with he | ho
  · have h0 : s % 2 = 0 := Nat.even_iff.mp he
    rw [if_neg (by omega : ¬ s % 2 ≠ 0), he.neg_one_pow, one_mul]
  · have h1 : s % 2 = 1 := Nat.odd_iff.mp ho
    rw [if_pos (by omega : s % 2 ≠ 0), ho.neg_one_pow]
    ring

end OldOps


section DeterminantClaim

/-- C2: on every `n × n` working matrix the old `calculateDeterminant`
either takes the zero-pivot short circuit and returns determinant `0`, or
completes partial-pivoting Gaussian elimination and returns the product of
the diagonal entries of the triangularized (upper-triangular) matrix times
`(-1)^swapCount`, having recorded one elimination trace step per eliminated
row (`n(n-1)/2` of them in a completed run); on `[[1,2],[3,4]]` it returns
`-2`. -/
theorem calculateDeterminant_claim (n : ℕ) (M : OldOps.Mat) :
    ((OldOps.detGo n n 0 M 0 0 = none ∧ OldOps.calculateDeterminant M n = 0) ∨
      (∃ T s c, OldOps.detGo n n 0 M 0 0 = some (T, s, c) ∧
        (∀ r col, col < r → col < n → T r col = 0) ∧
        OldOps.calculateDeterminant M n = (-1) ^ s * OldOps.diagProd T n ∧
        2 * c = n * (n - 1))) ∧
    OldOps.calculateDeterminant mat12 2 = -2 := by
  constructor
  · cases hrun : OldOps.detGo n n 0 M 0 0 with
    | none =>
      left
      refine ⟨rfl, ?_⟩
      unfold OldOps.calculateDeterminant
      rw [hrun]
    | some res =>
      right
      obtain ⟨T, s, c⟩ := res
      refine ⟨T, s, c, rfl, ?_, ?_, ?_⟩
      · exact OldOps.detGo_partTri n n 0 M 0 0 T s c (by omega)
          (fun r col _ hc0 => absurd hc0 (Nat.not_lt_zero col)) hrun
      · unfold OldOps.calculateDeterminant
        rw [hrun]
        exact OldOps.sign_flip_eq_pow _ s
      · have h := OldOps.detGo_stepCount n n 0 M 0 0 T s c (by omega) hrun
        simpa using h
  · norm_num [OldOps.calculateDeterminant, OldOps.detGo, OldOps.findPivotRow,
      OldOps.swapRows, OldOps.elimBelow, OldOps.diagProd, mat12,
      List.range_succ, abs_of_nonneg, abs_of_nonpos]

end DeterminantClaim

section SolveClaim

/-- C3: the old `solveEquations` builds `[A|b]`, reduces it to RREF and
classifies by ranks exactly as claimed: `rankA` is the repository's rank of
`A`; the result is `no-solution` iff `rankA < rankAugmented`; it is
`unique-solution` iff `rankA = rankAugmented = n` (the solution then read
off by back-substitution over the RREF); otherwise it is
`infinite-solutions` carrying one particular solution, one basis vector per
free variable, and solution-space dimension `n - rankA`.  On
`A = [[1,2],[3,4]]`, `b = [5,11]` it returns the unique solution `[1, 2]`. -/
theorem solveEquations_classification :
    (∀ (A : List (List ℚ)) (b : List ℚ) (r : OldOps.SolveResult),
      OldOps.solveEquations A b = .ok r →
      r.rankA = OldOps.calculateRank A ∧
      (r.type = .noSolution ↔ r.rankA < r.rankAugmented) ∧
      (r.type = .uniqueSolution ↔
        (r.rankA = r.rankAugmented ∧ r.rankA = (A.headD []).length)) ∧
      (r.type = .infiniteSolutions →
        r.dimension = some ((A.headD []).length - r.rankA) ∧
        r.basisSolutions.length =
          (OldOps.freeVariablesOf
            (OldOps.reduceToRowEchelon (List.zipWith (fun row c => row ++ [c]) A b))
            (((OldOps.reduceToRowEchelon
              (List.zipWith (fun row c => row ++ [c]) A b)).headD []).length - 1)).length)) ∧
    OldOps.solveEquations [[1, 2], [3, 4]] [5, 11] =
      .ok ⟨.uniqueSolution, 2, 2, some [1, 2], none, [], none⟩ := by
  constructor
  · intro A b r hok
    simp only [OldOps.solveEquations] at hok
    split_ifs at hok with h1 h2 h3 h4 h5
    · rw [Except.ok.injEq] at hok
      subst hok
      exact ⟨rfl, iff_of_true rfl h4,
        iff_of_false (by simp)
          (fun hcon => by
            have he : OldOps.calculateRank A =
                OldOps.calculateRank (OldOps.reduceToRowEchelon
                  (List.zipWith (fun row c => row ++ [c]) A b)) := hcon.1
            omega),
        by simp⟩
    · rw [Except.ok.injEq] at hok
      subst hok
      exact ⟨rfl, iff_of_false (by simp) h4, iff_of_true rfl h5, by simp⟩
    · rw [Except.ok.injEq] at hok
      subst hok
      refine ⟨rfl, iff_of_false (by simp) h4, iff_of_false (by simp) h5,
        fun _ => ⟨rfl, by
          simp [OldOps.findParticularSolutionAndBasis, List.length_map]⟩⟩
  · norm_num [OldOps.solveEquations, OldOps.reduceToRowEchelon, OldOps.rrefGo,
      OldOps.findRowFrom, OldOps.swapRowsL, OldOps.normalizeRow,
      OldOps.elimOthersL, OldOps.getE, OldOps.isZeroNum, OldOps.calculateRank,
      OldOps.gaussianElimination, OldOps.backSubstGo, OldOps.backSubstStep,
      OldOps.jsRound10, jsRound, List.range_succ, List.replicate_succ,
      List.set_cons_zero, List.set_cons_succ,
      abs_of_nonneg, abs_of_nonpos]

/-- C3 witness: the classification theorem applied to the concrete run
`solveEquations [[1,2],[3,4]] [5,11]`, whose `ok` hypothesis is discharged
by the scenario conjunct. -/
theorem solveEquations_classification_witness :
    OldOps.calculateRank [[1, 2], [3, 4]] = 2 ∧
    ((OldOps.SolveType.uniqueSolution = OldOps.SolveType.noSolution) ↔ (2 : ℕ) < 2) :=
  ⟨(solveEquations_classification.1 [[1, 2], [3, 4]] [5, 11] _
      solveEquations_classification.2).1.symm,
    (solveEquations_classification.1 [[1, 2], [3, 4]] [5, 11] _
      solveEquations_classification.2).2.1⟩

end SolveClaim

section CharPolyClaim

/-- C4: the new `calculateCharacteristicPolynomial` pushes the principal
minors' sums with NO `(-1)^r` factor, and its accumulator
`sum += det.result` string-concatenates the `Fraction` results (the first
`+=` turns the number 0 into `"0" ++ "2"`): on `[[2,0],[0,3]]` the pushed
coefficient values are `[1, "023", "06"]` and the formatted coefficients
the method returns are `["1", "23", "6"]` — the polynomial `x² + 23x + 6`
as displayed — while the claimed formula, implemented by the old file,
gives `[1, -5, 6]` (`x² - 5x + 6`). -/
theorem charPoly_missing_sign :
    NewOps.calcCharPolyCoeffVals [[2, 0], [0, 3]] =
      [.num 1, .str "023", .str "06"] ∧
    NewOps.calcCharPolyFormatted [[2, 0], [0, 3]] = ["1", "23", "6"] ∧
    NewOps.specCharPolyCoeffs [[2, 0], [0, 3]] = [1, -5, 6] := by
  have hlen : ([[2, 0], [0, 3]] : List (List ℚ)).length = 2 := rfl
  have hr2 : List.range 2 = [0, 1] := rfl
  have hc1 : NewOps.generateCombinations [0, 1] 1 = [[0], [1]] := by
    simp [NewOps.generateCombinations]
  have hc2 : NewOps.generateCombinations [0, 1] 2 = [[0, 1]] := by
    simp [NewOps.generateCombinations]
  have hm0 : NewOps.extractPrincipalMinor [[2, 0], [0, 3]] [0] = [[2]] := by
    norm_num [NewOps.extractPrincipalMinor, OldOps.getE]
  have hm1 : NewOps.extractPrincipalMinor [[2, 0], [0, 3]] [1] = [[3]] := by
    norm_num [NewOps.extractPrincipalMinor, OldOps.getE]
  have hm01 : NewOps.extractPrincipalMinor [[2, 0], [0, 3]] [0, 1] =
      [[2, 0], [0, 3]] := by
    norm_num [NewOps.extractPrincipalMinor, OldOps.getE]
  have hd0 : NewOps.detResult [[2]] 1 = 2 := by
    norm_num [NewOps.detResult, NewOps.detListGo, NewOps.findPivotRowN,
      NewOps.elimBelowRowsN, OldOps.getE, OldOps.swapRowsL, List.range_succ,
      List.mapIdx_cons, abs_of_nonneg, abs_of_nonpos]
  have hd1 : NewOps.detResult [[3]] 1 = 3 := by
    norm_num [NewOps.detResult, NewOps.detListGo, NewOps.findPivotRowN,
      NewOps.elimBelowRowsN, OldOps.getE, OldOps.swapRowsL, List.range_succ,
      List.mapIdx_cons, abs_of_nonneg, abs_of_nonpos]
  have hd01 : NewOps.detResult [[2, 0], [0, 3]] 2 = 6 := by
    norm_num [NewOps.detResult, NewOps.detListGo, NewOps.findPivotRowN,
      NewOps.elimBelowRowsN, OldOps.getE, OldOps.swapRowsL, List.range_succ,
      List.mapIdx_cons, abs_of_nonneg, abs_of_nonpos]
  have hv0 : NewOps.detResultVal [[2]] 1 = NewOps.JSVal.frac ⟨2, 1⟩ := by
    norm_num [NewOps.detResultVal, NewOps.detListGo, NewOps.findPivotRowN,
      NewOps.elimBelowRowsN, OldOps.getE, OldOps.swapRowsL, List.range_succ,
      List.mapIdx_cons, Frac.ofRat, abs_of_nonneg, abs_of_nonpos]
  have hv1 : NewOps.detResultVal [[3]] 1 = NewOps.JSVal.frac ⟨3, 1⟩ := by
    norm_num [NewOps.detResultVal, NewOps.detListGo, NewOps.findPivotRowN,
      NewOps.elimBelowRowsN, OldOps.getE, OldOps.swapRowsL, List.range_succ,
      List.mapIdx_cons, Frac.ofRat, abs_of_nonneg, abs_of_nonpos]
  have hv01 : NewOps.detResultVal [[2, 0], [0, 3]] 2 =
      NewOps.JSVal.frac ⟨6, 1⟩ := by
    norm_num [NewOps.detResultVal, NewOps.detListGo, NewOps.findPivotRowN,
      NewOps.elimBelowRowsN, OldOps.getE, OldOps.swapRowsL, List.range_succ,
      List.mapIdx_cons, Frac.ofRat, abs_of_nonneg, abs_of_nonpos]
  have hn0 : NewOps.jsNumToString 0 = "0" := by
    unfold NewOps.jsNumToString
    rw [show ((0 : ℚ)).num = 0 by norm_num]
    decide
  have ha2 : NewOps.jsAdd (NewOps.JSVal.num 0) (NewOps.JSVal.frac ⟨2, 1⟩) =
      NewOps.JSVal.str "02" := by
    simp only [NewOps.jsAdd]
    rw [hn0]
    decide
  have ha3 : NewOps.jsAdd (NewOps.JSVal.str "02") (NewOps.JSVal.frac ⟨3, 1⟩) =
      NewOps.JSVal.str "023" := by
    decide
  have ha6 : NewOps.jsAdd (NewOps.JSVal.num 0) (NewOps.JSVal.frac ⟨6, 1⟩) =
      NewOps.JSVal.str "06" := by
    simp only [NewOps.jsAdd]
    rw [hn0]
    decide
  have hsv0 : NewOps.calculatePrincipalMinorsSum [[2, 0], [0, 3]] 0 =
      NewOps.JSVal.num 1 := by
    unfold NewOps.calculatePrincipalMinorsSum
    norm_num
  have hsv1 : NewOps.calculatePrincipalMinorsSum [[2, 0], [0, 3]] 1 =
      NewOps.JSVal.str "023" := by
    unfold NewOps.calculatePrincipalMinorsSum
    rw [if_neg (by norm_num), if_neg (by rw [hlen]; norm_num), hlen, hr2, hc1]
    simp only [List.map_cons, List.map_nil]
    rw [hm0, hm1, hv0, hv1]
    simp only [List.foldl_cons, List.foldl_nil]
    rw [ha2, ha3]
  have hsv2 : NewOps.calculatePrincipalMinorsSum [[2, 0], [0, 3]] 2 =
      NewOps.JSVal.str "06" := by
    unfold NewOps.calculatePrincipalMinorsSum
    rw [if_neg (by norm_num), if_neg (by rw [hlen]; norm_num), hlen, hr2, hc2]
    simp only [List.map_cons, List.map_nil]
    rw [hm01, hv01]
    simp only [List.foldl_cons, List.foldl_nil]
    rw [ha6]
  have hvals : NewOps.calcCharPolyCoeffVals [[2, 0], [0, 3]] =
      [NewOps.JSVal.num 1, NewOps.JSVal.str "023", NewOps.JSVal.str "06"] := by
    show (List.range 3).map _ = _
    rw [show List.range 3 = [0, 1, 2] by rfl]
    simp only [List.map_cons, List.map_nil]
    rw [hsv0, hsv1, hsv2]
  have hf1 : NewOps.formatNumberVal (NewOps.JSVal.num 1) = "1" := by
    simp only [NewOps.formatNumberVal]
    have h : jsRound ((1 : ℚ) * 10 ^ 10) = 10000000000 := by
      norm_num [jsRound]
    rw [toFractionNew, h]
    decide
  have hf2 : NewOps.formatNumberVal (NewOps.JSVal.str "023") = "23" := by
    decide
  have hf3 : NewOps.formatNumberVal (NewOps.JSVal.str "06") = "6" := by
    decide
  have hs0 : NewOps.specMinorsSum [[2, 0], [0, 3]] 0 = 1 := by
    unfold NewOps.specMinorsSum
    norm_num
  have hs1 : NewOps.specMinorsSum [[2, 0], [0, 3]] 1 = 5 := by
    unfold NewOps.specMinorsSum
    rw [if_neg (by norm_num), hlen, hr2, hc1]
    simp only [List.map_cons, List.map_nil]
    rw [hm0, hm1, hd0, hd1]
    norm_num
  have hs2 : NewOps.specMinorsSum [[2, 0], [0, 3]] 2 = 6 := by
    unfold NewOps.specMinorsSum
    rw [if_neg (by norm_num), hlen, hr2, hc2]
    simp only [List.map_cons, List.map_nil]
    rw [hm01, hd01]
    norm_num
  refine ⟨hvals, ?_, ?_⟩
  · show (NewOps.calcCharPolyCoeffVals [[2, 0], [0, 3]]).map _ = _
    rw [hvals]
    simp only [List.map_cons, List.map_nil]
    rw [hf1, hf2, hf3]
  · show (List.range 3).map _ = _
    rw [show List.range 3 = [0, 1, 2] by rfl]
    simp only [List.map_cons, List.map_nil]
    rw [hs0, hs1, hs2]
    norm_num

end CharPolyClaim

section SchmidtClaim

/-- C7 counterexample: `[[1,0],[2,0]]` is rank-deficient (the repository's
own analysis reports rank 1 of 2, not linearly independent), yet the NEW
implementation's `schmidtOrthonormalization` — which runs no independence
analysis — still produces orthogonal output vectors (`[[1,0],[0,0]]`,
not the claimed empty output). -/
theorem schmidt_no_early_return_counterexample :
    OldOps.analyzeVectorsOld [[1, 0], [2, 0]] = .ok ⟨false, 1, [0]⟩ ∧
    NewOps.schmidtOrthogonalN [[1, 0], [2, 0]] = [[1, 0], [0, 0]] ∧
    NewOps.schmidtOrthogonalN [[1, 0], [2, 0]] ≠ [] := by
  have h2 : NewOps.schmidtOrthogonalN [[1, 0], [2, 0]] = [[1, 0], [0, 0]] := by
    norm_num [NewOps.schmidtOrthogonalN, NewOps.dotQ]
  refine ⟨?_, h2, by rw [h2]; exact List.cons_ne_nil _ _⟩
  norm_num [OldOps.analyzeVectorsOld, OldOps.vectorFamilyOk,
    OldOps.analyzeStep, OldOps.findPivotCol, OldOps.swapColsL,
    OldOps.normalizeColL, OldOps.elimColsL, OldOps.getE,
    List.range_succ, List.mapIdx_cons, List.set_cons_zero,
    List.set_cons_succ, abs_of_nonneg, abs_of_nonpos]

/-- C7 (amended): the OLD implementation behaves as the claim states — it
first runs the linear-independence analysis and, for every rank-deficient
family, returns early with `isLinearlyIndependent: false` and no
orthogonal output vectors.  (The new implementation runs no analysis and
always emits one orthogonal vector per input vector; see the
counterexample.) -/
theorem schmidt_early_return (vectors : List (List ℚ)) (a : OldOps.AnalyzeResultO)
    (h : OldOps.analyzeVectorsOld vectors = .ok a)
    (hdep : a.isLinearlyIndependent = false) :
    OldOps.schmidtOrthonormalizationOld vectors = .ok ⟨false, a.rank, []⟩ := by
  unfold OldOps.schmidtOrthonormalizationOld
  have hok : ¬ ¬ OldOps.vectorFamilyOk vectors := by
    intro hbad
    unfold OldOps.analyzeVectorsOld at h
    rw [if_pos hbad] at h
    exact absurd h (by simp)
  rw [if_neg hok, h]
  simp [hdep]

/-- C7 witness: the early-return theorem applied to the concrete
rank-deficient family `[[1,0],[2,0]]`, both hypotheses discharged by
evaluation. -/
theorem schmidt_early_return_witness :
    OldOps.schmidtOrthonormalizationOld [[1, 0], [2, 0]] = .ok ⟨false, 1, []⟩ :=
  schmidt_early_return [[1, 0], [2, 0]] ⟨false, 1, [0]⟩
    (by norm_num [OldOps.analyzeVectorsOld, OldOps.vectorFamilyOk,
      OldOps.analyzeStep, OldOps.findPivotCol, OldOps.swapColsL,
      OldOps.normalizeColL, OldOps.elimColsL, OldOps.getE,
      List.range_succ, List.mapIdx_cons, List.set_cons_zero,
      List.set_cons_succ, abs_of_nonneg, abs_of_nonpos]) rfl

end SchmidtClaim

section NormalizeClaim

/-- C8: the old `normalizeVector` fails with the zero-vector error exactly
when the norm is numerically zero — evaluated on the zero vector — and on a
nonzero-norm input returns the float vector scaled by the reciprocal of the
norm: `[3,4]` normalises to `[3/5, 4/5]` (as reals; the result type is
`List ℝ`, never a rational vector).  The NEW file's `normalizeVector`
(lines 720-723) performs no such check at all; see RESULTS for the
divergence. -/
theorem normalizeVector_zero_vector_check :
    OldOps.normalizeVectorOld [0, 0] = .error "零向量无法单位化" ∧
    OldOps.normalizeVectorOld [3, 4] = .ok [3 / 5, 4 / 5] := by
  constructor
  · unfold OldOps.normalizeVectorOld
    rw [if_pos]
    have h0 : OldOps.sumSquares [0, 0] = 0 := by norm_num [OldOps.sumSquares]
    rw [h0]
    norm_num
  · unfold OldOps.normalizeVectorOld
    have h25 : OldOps.sumSquares [3, 4] = 25 := by norm_num [OldOps.sumSquares]
    rw [h25]
    have hsq : Real.sqrt ((25 : ℚ) : ℝ) = 5 := by
      rw [show ((25 : ℚ) : ℝ) = (5 : ℝ) ^ 2 by norm_num]
      exact Real.sqrt_sq (by norm_num)
    rw [hsq, if_neg (by norm_num)]
    norm_num

end NormalizeClaim

section RelationClaim

/-- C10: the new `analyzeVectors` always returns `relation = []` — its
`calculateLinearRelation` helper is a stub returning the empty list — so no
linear relation is ever reported, even though the dependent branch does
report the rank and `isLinearlyIndependent: false` (as the concrete
dependent family `[[1,0],[2,0]]` shows: rank 1, not independent, basis
`[[1,0]]`, empty relation). -/
theorem analyzeVectors_relation_stub :
    (∀ (vectors : List (List ℚ)) (r : NewOps.AnalyzeResultN),
      NewOps.analyzeVectors vectors = .ok r → r.relation = []) ∧
    NewOps.analyzeVectors [[1, 0], [2, 0]] = .ok ⟨1, false, [[1, 0]], []⟩ := by
  constructor
  · intro vectors r hok
    simp only [NewOps.analyzeVectors] at hok
    split_ifs at hok
    · rw [Except.ok.injEq] at hok
      subst hok
      rfl
    · rw [Except.ok.injEq] at hok
      subst hok
      rfl
  · norm_num [NewOps.analyzeVectors, NewOps.reduceToRowEchelonN,
      NewOps.rrefGoN, NewOps.findRowFromN, NewOps.elimOthersN,
      NewOps.calculateRankN, NewOps.findPivotColumns,
      NewOps.calculateLinearRelation, OldOps.getE, OldOps.swapRowsL,
      OldOps.normalizeRow, List.range_succ, List.mapIdx_cons,
      List.set_cons_zero, List.set_cons_succ]

/-- C10 witness: the stub theorem applied to the concrete dependent family,
its `ok` hypothesis discharged by the evaluation conjunct. -/
theorem analyzeVectors_relation_stub_witness :
    (⟨1, false, [[1, 0]], []⟩ : NewOps.AnalyzeResultN).relation = [] :=
  analyzeVectors_relation_stub.1 [[1, 0], [2, 0]] _ analyzeVectors_relation_stub.2

end RelationClaim

end Spec2Proof
